import Mathlib

/-
  Verification of the connection engine of the `NTPlatform` class
  (iontrader/server-api-js).  The JavaScript source is shallowly embedded:

  * JSON values are the inductive `JVal` (numbers as exact rationals);
  * the inbound array classifier of `handleData` is `classifyArray`;
  * the CRLF framing part of `handleData` is `feed`;
  * the notification dedup block is `dedupInsert`;
  * the backoff formula of `reconnect` is `backoffDelay`;
  * the stateful engine - socket handlers, `send`, `reconnect`,
    `destroy`, per-request timers - is the transition system `step`
    on the state record `Engine`.
-/

namespace NTPlatform

/-! ### JSON values

JavaScript values as far as the classifier inspects them.  Numbers are
modelled as exact rationals: the classifier only performs `typeof`
checks and truthiness tests on them, never float arithmetic.  Nested
composite values (`arr`, `obj`) are opaque: a top-level inbound array is
embedded as a `List JVal` of its elements, and the engine never inspects
the contents of an array or object appearing as an element, so only an
identity tag is kept. -/

inductive JVal where
  | null
  | bool (b : Bool)
  | num (q : ℚ)
  | str (s : String)
  | arr (n : Nat)
  | obj (n : Nat)
  deriving DecidableEq, Repr

/-- JavaScript truthiness for the values `JVal` models
(`0`, `""`, `null`, `false` are falsy). -/
def JVal.truthy : JVal → Bool
  | .null => false
  | .bool b => b
  | .num q => decide (q ≠ 0)
  | .str s => decide (s ≠ "")
  | .arr _ => true
  | .obj _ => true

/-! ### Quote classification (`handleData`, array branch, marker `"t"`)

Source:
    if (marker === 't' && parsed.length >= 4) {
        const [, symbol, bid, ask, timestamp] = parsed;
        if (typeof symbol === 'string' && typeof bid === 'number'
            && typeof ask === 'number') {
            const quote = { symbol, bid, ask,
                            timestamp: timestamp ? new Date(timestamp * 1000) : null };
            this.emit('quote', quote);
            this.emit(`quote:...upper...`, quote);
        }
        continue;
    }
The `timestamp` field keeps the raw truthy value (the `Date` conversion
is a bijective re-presentation and is not inspected by any claim). -/

structure Quote where
  symbol : String
  bid : ℚ
  ask : ℚ
  timestamp : Option JVal
  deriving DecidableEq, Repr

/-- `timestamp ? timestamp : null` for the optional fifth element. -/
def tsField (o : Option JVal) : Option JVal :=
  match o with
  | some v => if v.truthy then some v else none
  | none => none

/-- Classification outcome of the `Array.isArray(parsed)` branch of
`handleData`.  A marker-`"t"` array that fails the `typeof` validation is
silently skipped (no publish, no error), which the spec calls
Unrecognized; unknown markers fall through to the `Unknown array message`
log, also Unrecognized. -/
inductive ArrayClass where
  | quote (q : Quote)
  | notifyMsg (token level : JVal)
  | symbolsReindex (v : JVal)
  | securityReindex (v : JVal)
  | unrecognized
  deriving DecidableEq, Repr

/-- The marker dispatch of the array branch of `handleData`, in source
order: `"t"` (length ≥ 4), `"n"` (length ≥ 8), `"sr"` (length = 2),
`"sc"` (length = 2), otherwise unrecognized. -/
def classifyArray (xs : List JVal) : ArrayClass :=
  if xs.head? = some (.str "t") ∧ 4 ≤ xs.length then
    match xs.get? 1, xs.get? 2, xs.get? 3 with
    | some (.str symbol), some (.num bid), some (.num ask) =>
        .quote ⟨symbol, bid, ask, tsField (xs.get? 4)⟩
    | _, _, _ => .unrecognized
  else if xs.head? = some (.str "n") ∧ 8 ≤ xs.length then
    .notifyMsg ((xs.get? 3).getD .null) ((xs.get? 5).getD .null)
  else if xs.head? = some (.str "sr") ∧ xs.length = 2 then
    .symbolsReindex ((xs.get? 1).getD .null)
  else if xs.head? = some (.str "sc") ∧ xs.length = 2 then
    .securityReindex ((xs.get? 1).getD .null)
  else .unrecognized

/-- `symbol.toUpperCase()` (ASCII letters; quote symbols are ASCII). -/
def jsToUpperCase (s : String) : String := ⟨s.data.map Char.toUpper⟩

/-- The two `emit` calls of the valid-quote branch:
`emit('quote', quote)` and `emit('quote:SYMBOL', quote)` with the
uppercased symbol in the topic and the received symbol in the payload. -/
def quotePublishes (q : Quote) : List (String × Quote) :=
  [("quote", q), ("quote:" ++ jsToUpperCase q.symbol, q)]

/-- Two character lists that agree letter-for-letter up to case. -/
def caseVariantB : List Char → List Char → Bool
  | [], [] => true
  | c1 :: t1, c2 :: t2 => c1.toUpper = c2.toUpper && caseVariantB t1 t2
  | _, _ => false

/-! ### Backoff (`reconnect`)

Source:
    const delay = Math.min(RECONNECT_DELAY_MS * Math.pow(1.5, this.errorCount - 1), 30000);
with `RECONNECT_DELAY_MS = 4000`.  Modelled over exact rationals with an
integer exponent (JavaScript `errorCount - 1` is `-1` when the counter is
zero; for the small exponents the claims touch, the double-precision
values are exact). -/

def backoffDelay (errorCount : Nat) : ℚ :=
  min (4000 * (3 / 2 : ℚ) ^ ((errorCount : ℤ) - 1)) 30000

/-! ### Notification dedup (`handleData`, array branch, marker `"n"`)

Source:
    if (this.seenNotifyTokens.has(token)) continue;
    this.seenNotifyTokens.add(token);
    if (this.seenNotifyTokens.size > 10000) {
        const firstToken = this.seenNotifyTokens.values().next().value;
        this.seenNotifyTokens.delete(firstToken);
    }
    ... this.emit('notify', notify); this.emit(`notify:...level...`, notify);

A JavaScript `Set` iterates in insertion order, so it is embedded as a
duplicate-free list with insertion at the tail and eviction at the head.
The returned `Bool` is whether the message proceeded to the two `emit`
calls (`true` exactly when the token was not already seen). -/

def dedupInsert (seen : List JVal) (tok : JVal) : Bool × List JVal :=
  if seen.contains tok then (false, seen)
  else (true,
    if 10000 < (seen ++ [tok]).length then (seen ++ [tok]).tail else seen ++ [tok])

/-- Feeding a whole sequence of notification tokens through the dedup
cache, returning the final cache contents. -/
def dedupRun (seen : List JVal) (toks : List JVal) : List JVal :=
  toks.foldl (fun s t => (dedupInsert s t).2) seen

/-! ### Framer (`handleData`, framing part)

Source:
    this.recv += data.toString();
    const delimiterPos = this.recv.lastIndexOf('\r\n');
    if (delimiterPos === -1) return;
    const received = this.recv.slice(0, delimiterPos);
    this.recv = this.recv.slice(delimiterPos + 2);
    const tokens = received.split('\r\n');
    for (const token of tokens) { if (!token.trim()) continue; ... }

Text is embedded as `List Char`.  `splitCRLF` is `String.split('\r\n')`
(split at every occurrence of the two-character delimiter, scanning left
to right), `findLastCRLF` is `lastIndexOf('\r\n')`, and `feed` is one
invocation of the framing part, returning the emitted (non-blank) tokens
and the new buffer.  `!token.trim()` discards tokens made entirely of
whitespace, not only empty tokens. -/

/-- Prepend a character to the first token of a split result. -/
def consHead (c : Char) : List (List Char) → List (List Char)
  | [] => [[c]]
  | t :: ts => (c :: t) :: ts

/-- `received.split('\r\n')`. -/
def splitCRLF : List Char → List (List Char)
  | [] => [[]]
  | '\r' :: '\n' :: rest => [] :: splitCRLF rest
  | c :: rest => consHead c (splitCRLF rest)

/-- `this.recv.lastIndexOf('\r\n')` (as an `Option`al index). -/
def findLastCRLF : List Char → Option Nat
  | [] => none
  | c :: rest =>
    match findLastCRLF rest with
    | some i => some (i + 1)
    | none => if c = '\r' ∧ rest.head? = some '\n' then some 0 else none

/-- The whitespace characters `String.prototype.trim` strips (ASCII
range; quote/notify frames are ASCII JSON). -/
def isJsSpace (c : Char) : Bool :=
  c = ' ' ∨ c = '\t' ∨ c = '\n' ∨ c = '\r' ∨ c = '\x0b' ∨ c = '\x0c'

/-- `!token.trim()`: the token is empty or whitespace-only. -/
def isBlankTok (t : List Char) : Bool := t.all isJsSpace

/-- One `handleData` framing pass: append the chunk to the buffer
(`this.recv += data`), cut at the last CRLF, split the complete part
into tokens, discard blank tokens, retain the remainder as the new
buffer. -/
def feed (buf chunk : List Char) : List (List Char) × List Char :=
  match findLastCRLF (buf ++ chunk) with
  | none => ([], buf ++ chunk)
  | some i =>
    ((splitCRLF ((buf ++ chunk).take i)).filter (fun t => ¬ isBlankTok t),
      (buf ++ chunk).drop (i + 2))

/-- Fold one chunk into an accumulated (emissions, buffer) pair. -/
def feedStep (st : List (List Char) × List Char) (chunk : List Char) :
    List (List Char) × List Char :=
  (st.1 ++ (feed st.2 chunk).1, (feed st.2 chunk).2)

/-- Feed a sequence of chunks into a fresh framer, collecting all
emitted tokens in order together with the final buffer. -/
def feedMany (chunks : List (List Char)) : List (List Char) × List Char :=
  chunks.foldl feedStep ([], [])

/-! ### The stateful engine

The mutable state of an `NTPlatform` instance and its event handlers as
a transition system.  Each caller-visible promise is identified by a
serial number allocated at registration; `futures` is the log of
settlement calls (`resolve`/`reject`) made on these promises, so
"settled at most once" is a real property of the handlers, not of
JavaScript promise semantics.  `setTimeout` handles are embedded as
armed-timer sets whose firing is an environment event, and socket events
(`connect` is only delivered while a connect attempt is in progress;
error/close/timeout can be emitted by a socket in any state, as a failed
write or teardown does).  The framing buffer `recv` is covered by the
separate `feed` model; the classifier feeds the engine the already
classified messages (`dataResponse`, `recvNotify`). -/

/-- How a settlement call completed a request's promise:
`resolve(parsed)` on a matching response, the response-timeout
rejection, the `Connection lost` rejection of `reconnect`, the
`Platform destroyed` rejection of `destroy`, or the rejection with the
caught `socket.write` error in `send`. -/
inductive Outcome where
  | resolved
  | timedOut
  | connLost
  | destroyed
  | writeErr
  deriving DecidableEq, Repr

/-- Result of one `send` call, as seen by the caller at the call site:
the promise was rejected synchronously with the not-connected error, or
a pending entry was registered (and possibly immediately rejected by a
caught write error). -/
inductive SendRes where
  | notConnected
  | registered (serial : Nat)
  | writeFailed (serial : Nat)
  deriving DecidableEq, Repr

/-- The mutable fields of an `NTPlatform` instance.  `timers` are the
armed per-request `setTimeout` handles as pairs (promise serial, the
`payload.extID` captured by the callback); `pending` is the
`pendingRequests` map in insertion order; `futures` is the settlement
log; `timerField`/`timerArmed` mirror `this._reconnectTimer` (the field
stays truthy after `destroy` clears the timeout, because `destroy` never
deletes it); `connecting` is whether the current socket still has an
undelivered `connect` event; `nextSerial`/`nextId` are the promise and
`generateExtID` supplies. -/
structure Engine where
  connected : Bool
  alive : Bool
  errorCount : Nat
  connecting : Bool
  timerField : Bool
  timerArmed : Bool
  seen : List JVal
  pending : List (String × Nat)
  timers : List (Nat × String)
  futures : List (Nat × Outcome)
  nextSerial : Nat
  nextId : Nat
  deriving DecidableEq, Repr

/-- `pendingRequests.get(extID)` (the serial of the stored entry). -/
def lookupPending (m : List (String × Nat)) (e : String) : Option Nat :=
  (m.find? (fun p => p.1 = e)).map (fun p => p.2)

/-- `pendingRequests.set(extID, entry)`: replace in place, else append
(a JavaScript `Map` keeps the original position of an updated key). -/
def setPending : List (String × Nat) → String → Nat → List (String × Nat)
  | [], e, s => [(e, s)]
  | p :: rest, e, s => if p.1 = e then (e, s) :: rest else p :: setPending rest e s

/-- `pendingRequests.delete(extID)`. -/
def erasePending (m : List (String × Nat)) (e : String) : List (String × Nat) :=
  m.filter (fun p => ¬ p.1 = e)

/-- `clearTimeout` on the per-request timer with the given serial. -/
def eraseTimer (ts : List (Nat × String)) (s : Nat) : List (Nat × String) :=
  ts.filter (fun t => ¬ t.1 = s)

/-- The fresh id `generateExtID()` yields for the n-th draw. -/
def generatedId (n : Nat) : String := "g" ++ Nat.repr n

/-- `send(payload)`:
    if (!payload.extID) payload.extID = generateExtID();
    payload.__token = this.token;
    if (!this.connected) return Promise.reject(new Error(... Not connected));
    return new Promise((resolve, reject) =>
      const timeout = setTimeout(() => delete; reject(Timeout), 30000);
      this.pendingRequests.set(payload.extID, (resolve, reject, timeout));
      try socket.write(...) catch (err) => clearTimeout; delete; reject(err));
`ext` is the caller-supplied `payload.extID` (absent for `callCommand`,
which always generates one first - same id consumption), `writeOk` is
whether `socket.write` returned without throwing. -/
def sendAux (en : Engine) (ext : Option String) (writeOk : Bool) : SendRes × Engine :=
  let eid := match ext with | some e => e | none => generatedId en.nextId
  let en1 := match ext with | some _ => en | none => { en with nextId := en.nextId + 1 }
  if en1.connected then
    let s := en1.nextSerial
    let en2 := { en1 with
      nextSerial := s + 1,
      timers := en1.timers ++ [(s, eid)],
      pending := setPending en1.pending eid s }
    if writeOk then (.registered s, en2)
    else
      (.writeFailed s, { en2 with
        timers := eraseTimer en2.timers s,
        pending := erasePending en2.pending eid,
        futures := en2.futures ++ [(s, .writeErr)] })
  else (.notConnected, en1)

/-- `reconnect()`:
    if (!this.alive || this._reconnectTimer) return;
    this.socket.destroy();
    this.seenNotifyTokens.clear();
    for ((extID, (reject, timeout)) of pendingRequests)
      clearTimeout(timeout); reject(new Error(... Connection lost));
    this.pendingRequests.clear();
    const delay = ...backoffDelay...;
    this._reconnectTimer = setTimeout(() => ...createSocket..., delay); -/
def reconnectProc (en : Engine) : Engine :=
  if !en.alive || en.timerField then en
  else
    { en with
      connecting := false,
      seen := [],
      futures := en.futures ++ en.pending.map (fun p => (p.2, Outcome.connLost)),
      timers := en.timers.filter (fun t => ¬ (en.pending.map (fun p => p.2)).contains t.1),
      pending := [],
      timerField := true,
      timerArmed := true }

/-- `createSocket()` (also run by the constructor and by the reconnect
timer callback): resets the error counter, the connected flag, the
liveness flag, the framing buffer and the dedup cache, then creates a
fresh socket and initiates a connect. -/
def createSocketProc (en : Engine) : Engine :=
  { en with
    errorCount := 0,
    connected := false,
    alive := true,
    seen := [],
    connecting := true }

/-- `destroy()`:
    this.alive = false;
    if (this._reconnectTimer) clearTimeout(this._reconnectTimer);
    this.seenNotifyTokens.clear();
    for (...) clearTimeout; reject(new Error(... Platform destroyed));
    this.pendingRequests.clear();
    this.socket.destroy();
(`this._reconnectTimer` is never deleted, so the field stays set.) -/
def destroyProc (en : Engine) : Engine :=
  { en with
    alive := false,
    timerArmed := false,
    seen := [],
    futures := en.futures ++ en.pending.map (fun p => (p.2, Outcome.destroyed)),
    timers := en.timers.filter (fun t => ¬ (en.pending.map (fun p => p.2)).contains t.1),
    pending := [],
    connecting := false }

/-- Environment events: socket lifecycle events, classified inbound
messages, caller operations, and timer firings. -/
inductive Ev where
  | sockConnect
  | sockTimeout
  | sockClose
  | sockError
  | dataResponse (extID : String)
  | recvNotify (tok : JVal)
  | sendCmd (ext : Option String) (writeOk : Bool)
  | respTimeout (serial : Nat)
  | reconnectFire
  | destroy
  deriving DecidableEq, Repr

/-- The event handlers of `createSocket`, the `send`/`callCommand`
entry points, the per-request timeout callback, the reconnect timer
callback and `destroy`, each as installed by the source. -/
def step (en : Engine) (ev : Ev) : Engine :=
  match ev with
  | .sockConnect =>
    -- .on('connect', () => connected = true; errorCount = 0; seen.clear())
    if en.connecting then
      { en with connected := true, errorCount := 0, seen := [], connecting := false }
    else en
  | .sockTimeout =>
    -- .on('timeout', () => if (this.alive) this.reconnect())
    if en.alive then reconnectProc en else en
  | .sockClose =>
    -- .on('close', () => connected = false; if (this.alive) this.reconnect())
    let en1 := { en with connected := false }
    if en1.alive then reconnectProc en1 else en1
  | .sockError =>
    -- .on('error', () => errorCount++;
    --   if (errorCount < 10 && alive) reconnect()
    --   else if (errorCount >= 10) alive = false)
    let en1 := { en with errorCount := en.errorCount + 1 }
    if en1.errorCount < 10 && en1.alive then reconnectProc en1
    else if 10 ≤ en1.errorCount then { en1 with alive := false }
    else en1
  | .dataResponse e =>
    -- handleData, extID branch: if pending.has → clearTimeout; delete; resolve
    --                           else → this.emit(extID, parsed)  (state untouched)
    match lookupPending en.pending e with
    | some s =>
      { en with
        timers := eraseTimer en.timers s,
        pending := erasePending en.pending e,
        futures := en.futures ++ [(s, .resolved)] }
    | none => en
  | .recvNotify t =>
    -- handleData, notify branch: dedup set update (emits are external)
    { en with seen := (dedupInsert en.seen t).2 }
  | .sendCmd ext w => (sendAux en ext w).2
  | .respTimeout s =>
    -- the setTimeout callback of send: pendingRequests.delete(payload.extID);
    -- reject(Timeout ...)
    match en.timers.find? (fun t => t.1 = s) with
    | some te =>
      { en with
        timers := eraseTimer en.timers s,
        pending := erasePending en.pending te.2,
        futures := en.futures ++ [(s, .timedOut)] }
    | none => en
  | .reconnectFire =>
    -- setTimeout(() => delete this._reconnectTimer; this.createSocket(), delay)
    if en.timerArmed then
      createSocketProc { en with timerArmed := false, timerField := false }
    else en
  | .destroy => destroyProc en

/-- The state right after `new NTPlatform(...)` (the constructor zeroes
the fields and calls `createSocket`). -/
def initEngine : Engine :=
  createSocketProc {
    connected := false, alive := true, errorCount := 0, connecting := false,
    timerField := false, timerArmed := false, seen := [], pending := [],
    timers := [], futures := [], nextSerial := 0, nextId := 0 }

/-- Run an event sequence from the freshly constructed engine. -/
def run (evs : List Ev) : Engine := evs.foldl step initEngine

/-- States of the engine reachable from construction. -/
inductive Reachable : Engine → Prop where
  | init : Reachable initEngine
  | step {en : Engine} (ev : Ev) : Reachable en → Reachable (step en ev)

/-! ### The claims, stated as written -/

/-- Claim C1 as stated: every settlement of a registered request's
future is a matching response, a timeout, or a connection-lost or
destroyed rejection. -/
def claimC1Prop : Prop :=
  ∀ (evs : List Ev) (s : Nat) (o : Outcome), (s, o) ∈ (run evs).futures →
    o = Outcome.resolved ∨ o = Outcome.timedOut ∨
    o = Outcome.connLost ∨ o = Outcome.destroyed

/-- Claim C2 as stated: a send while not connected is rejected
synchronously with the not-connected error and leaves the engine state
untouched (no pending entry, no correlation id consumed). -/
def claimC2Prop : Prop :=
  ∀ (en : Engine) (ext : Option String) (w : Bool), en.connected = false →
    (sendAux en ext w).1 = SendRes.notConnected ∧ (sendAux en ext w).2 = en

/-- Claim C3 as stated: only the socket's connect event ever resets a
nonzero consecutive-error counter to zero. -/
def claimC3Prop : Prop :=
  ∀ (evs : List Ev) (ev : Ev), (run evs).errorCount ≠ 0 →
    (step (run evs) ev).errorCount = 0 → ev = Ev.sockConnect

/-- Claim C4 as stated: once the consecutive-error counter has reached
the threshold 10, `isConnected()` remains false in every later state
(no reconnection ever succeeds again) until reconstruction. -/
def claimC4Prop : Prop :=
  ∀ (evs more : List Ev), 10 ≤ (run evs).errorCount →
    (run (evs ++ more)).connected = false

/-- Claim C5 as stated: any close, timeout or error event received while
connected rejects every pending request with the connection-lost error,
empties the correlation table and clears the dedup cache. -/
def claimC5Prop : Prop :=
  ∀ (evs : List Ev) (ev : Ev),
    (ev = Ev.sockClose ∨ ev = Ev.sockTimeout ∨ ev = Ev.sockError) →
    (run evs).connected = true →
    (step (run evs) ev).pending = [] ∧
    (step (run evs) ev).seen = [] ∧
    (step (run evs) ev).futures
      = (run evs).futures ++ (run evs).pending.map (fun p => (p.2, Outcome.connLost))

/-- Claim C6 as stated: for every chunking of the byte stream, the
framer emits exactly the complete CRLF-delimited tokens of the stream,
with (only) empty tokens discarded. -/
def claimC6Prop : Prop :=
  ∀ chunks : List (List Char),
    (feedMany chunks).1
      = ((splitCRLF chunks.flatten).dropLast).filter (fun t => ¬ t = [])

/-- Claim C9 as stated: an array is classified and published as a Quote
only if its symbol is a non-empty string. -/
def claimC9Prop : Prop :=
  ∀ (xs : List JVal) (q : Quote), classifyArray xs = ArrayClass.quote q →
    ¬ q.symbol = ""

/-! ### Engine invariant

The bookkeeping invariant connecting the `pendingRequests` map, the
armed per-request timers and the settlement log; it is what makes the
exactly-once property of claim C1 an induction over reachable states. -/

/-- Invariant of reachable engine states. -/
structure Inv (en : Engine) : Prop where
  pendingKeyNodup : (en.pending.map (fun p => p.1)).Nodup
  pendingSerNodup : (en.pending.map (fun p => p.2)).Nodup
  timersNodup : (en.timers.map (fun t => t.1)).Nodup
  timersLt : ∀ s ∈ en.timers.map (fun t => t.1), s < en.nextSerial
  pendingLt : ∀ s ∈ en.pending.map (fun p => p.2), s < en.nextSerial
  futuresLt : ∀ s ∈ en.futures.map (fun f => f.1), s < en.nextSerial
  pendingSubTimers :
    ∀ s ∈ en.pending.map (fun p => p.2), s ∈ en.timers.map (fun t => t.1)
  pendingTimerKey : ∀ p ∈ en.pending, ∀ t ∈ en.timers, p.2 = t.1 → p.1 = t.2
  futuresNodup : (en.futures.map (fun f => f.1)).Nodup
  futuresDisjTimers :
    ∀ s ∈ en.futures.map (fun f => f.1), s ∉ en.timers.map (fun t => t.1)
  covered : ∀ s, s < en.nextSerial →
    s ∈ en.timers.map (fun t => t.1) ∨ s ∈ en.futures.map (fun f => f.1)

/-! ## Theorems -/

/-! ### C8: backoff -/

/-- Claim C8: the scheduled reconnection delay, as a function of the
consecutive-error counter, is non-decreasing from count 1 on (in
particular over counts 1..5) and never exceeds the 30000 ms cap. -/
theorem backoff_monotone_capped :
    (∀ n : Nat, 1 ≤ n → backoffDelay n ≤ backoffDelay (n + 1)) ∧
    (∀ n : Nat, backoffDelay n ≤ 30000) := by
  constructor
  · intro n _
    unfold backoffDelay
    refine min_le_min (mul_le_mul_of_nonneg_left ?_ (by norm_num)) le_rfl
    refine zpow_le_zpow_right₀ (by norm_num) ?_
    push_cast
    omega
  · intro n
    exact min_le_right _ _

/-- Witness for C8: the step from count 2 to count 3 and the cap at
count 7, at concrete inputs. -/
theorem backoff_monotone_capped_witness :
    backoffDelay 2 ≤ backoffDelay 3 ∧ backoffDelay 7 ≤ 30000 :=
  ⟨backoff_monotone_capped.1 2 (by norm_num), backoff_monotone_capped.2 7⟩

/-! ### C9 and C10: quote classification and routing -/

/-- What `classifyArray` does on a marker-`"t"` array of length ≥ 4. -/
theorem classifyArray_tArray (v1 v2 v3 : JVal) (rest : List JVal) :
    classifyArray (JVal.str "t" :: v1 :: v2 :: v3 :: rest) =
      match v1, v2, v3 with
      | .str symbol, .num bid, .num ask =>
          ArrayClass.quote ⟨symbol, bid, ask, tsField rest.head?⟩
      | _, _, _ => ArrayClass.unrecognized := by
  have h4 : (4 : Nat) ≤ (JVal.str "t" :: v1 :: v2 :: v3 :: rest).length := by
    simp [List.length_cons]
  unfold classifyArray
  rw [if_pos ⟨rfl, h4⟩]
  simp only [List.get?_cons_succ, List.get?_cons_zero, List.get?_zero]
  cases v1 <;> cases v2 <;> cases v3 <;> rfl

/-- Claim C9 is false on the code: the empty-string symbol passes the
`typeof symbol === 'string'` validation, so `["t", "", 1, 2]` is
classified (and published) as a Quote, not treated as Unrecognized. -/
theorem quote_empty_symbol_published :
    classifyArray [JVal.str "t", JVal.str "", JVal.num 1, JVal.num 2]
      = ArrayClass.quote ⟨"", 1, 2, none⟩ ∧ ¬ claimC9Prop := by
  constructor
  · rfl
  · intro h
    exact h [JVal.str "t", JVal.str "", JVal.num 1, JVal.num 2]
      ⟨"", 1, 2, none⟩ rfl rfl

/-- Claim C9 (amended): a marker-`"t"` array of length ≥ 4 is classified
as a Quote exactly when its symbol is a string (possibly empty) and its
bid and ask are numbers; otherwise it is treated as Unrecognized (no
publish), never as an error. -/
theorem quote_validation (v1 v2 v3 : JVal) (rest : List JVal) :
    ((∃ q, classifyArray (JVal.str "t" :: v1 :: v2 :: v3 :: rest)
        = ArrayClass.quote q) ↔
      ((∃ s, v1 = JVal.str s) ∧ (∃ b, v2 = JVal.num b) ∧ (∃ a, v3 = JVal.num a))) ∧
    (((∃ s, v1 = JVal.str s) ∧ (∃ b, v2 = JVal.num b) ∧ (∃ a, v3 = JVal.num a)) ∨
      classifyArray (JVal.str "t" :: v1 :: v2 :: v3 :: rest)
        = ArrayClass.unrecognized) := by
  rw [classifyArray_tArray]
  cases v1 <;> cases v2 <;> cases v3 <;> simp

/-- Witness for C9 (amended) at a concrete valid and a concrete invalid
array. -/
theorem quote_validation_witness :
    (∃ q, classifyArray [JVal.str "t", JVal.str "X", JVal.num 1, JVal.num 2]
        = ArrayClass.quote q) ∧
    classifyArray [JVal.str "t", JVal.null, JVal.num 1, JVal.num 2]
      = ArrayClass.unrecognized := by
  constructor
  · exact (quote_validation (JVal.str "X") (JVal.num 1) (JVal.num 2) []).1.mpr
      ⟨⟨"X", rfl⟩, ⟨1, rfl⟩, ⟨2, rfl⟩⟩
  · rcases (quote_validation JVal.null (JVal.num 1) (JVal.num 2) []).2 with h | h
    · rcases h.1 with ⟨s, hs⟩
      exact absurd hs (by simp)
    · exact h

/-- `caseVariantB` lists uppercase to the same character list. -/
theorem caseVariantB_toUpper :
    ∀ l1 l2 : List Char, caseVariantB l1 l2 = true →
      l1.map Char.toUpper = l2.map Char.toUpper := by
  intro l1
  induction l1 with
  | nil =>
    intro l2 h
    cases l2 with
    | nil => rfl
    | cons c t => simp [caseVariantB] at h
  | cons c t ih =>
    intro l2 h
    cases l2 with
    | nil => simp [caseVariantB] at h
    | cons c2 t2 =>
      simp only [caseVariantB, Bool.and_eq_true, decide_eq_true_eq] at h
      simp [h.1, ih t2 h.2]

/-- Claim C10: a valid quote frame is published with payload symbol
exactly as received, under the per-symbol topic `quote:` followed by the
uppercased symbol, so symbols differing only in letter case share one
per-symbol topic. -/
theorem quote_symbol_routing :
    (∀ (s : String) (b a : ℚ) (rest : List JVal),
       classifyArray (JVal.str "t" :: JVal.str s :: JVal.num b :: JVal.num a :: rest)
         = ArrayClass.quote ⟨s, b, a, tsField rest.head?⟩) ∧
    (∀ q : Quote, quotePublishes q
       = [("quote", q), ("quote:" ++ jsToUpperCase q.symbol, q)]) ∧
    (∀ s1 s2 : String, caseVariantB s1.data s2.data = true →
       "quote:" ++ jsToUpperCase s1 = "quote:" ++ jsToUpperCase s2) := by
  refine ⟨?_, fun q => rfl, ?_⟩
  · intro s b a rest
    rw [classifyArray_tArray]
  · intro s1 s2 h
    have h2 := caseVariantB_toUpper _ _ h
    show "quote:" ++ String.mk (s1.data.map Char.toUpper)
        = "quote:" ++ String.mk (s2.data.map Char.toUpper)
    rw [h2]

/-- Witness for C10: concrete classification of a quote with a
mixed-case symbol, and coincidence of the per-symbol topics of
`EURusd` and `eurUSD`. -/
theorem quote_symbol_routing_witness :
    classifyArray [JVal.str "t", JVal.str "EURusd", JVal.num 1, JVal.num 2]
      = ArrayClass.quote ⟨"EURusd", 1, 2, tsField ([] : List JVal).head?⟩ ∧
    "quote:" ++ jsToUpperCase "EURusd" = "quote:" ++ jsToUpperCase "eurUSD" :=
  ⟨quote_symbol_routing.1 "EURusd" 1 2 [],
   quote_symbol_routing.2.2 "EURusd" "eurUSD" (by decide)⟩

/-! ### C2: send while disconnected -/

/-- Claim C2 is false on the code: `send` assigns a freshly generated
correlation id to the payload before the connectivity check, so the
not-connected rejection still consumes an id (here: the supply moves
from 0 to 1 on the freshly constructed, not yet connected engine). -/
theorem send_disconnected_consumes_id :
    ((sendAux initEngine none true).1 = SendRes.notConnected ∧
      initEngine.nextId = 0 ∧ (sendAux initEngine none true).2.nextId = 1) ∧
    ¬ claimC2Prop := by
  refine ⟨by decide, fun h => ?_⟩
  have h2 := (h initEngine none true (by decide)).2
  have h3 := congrArg Engine.nextId h2
  exact absurd h3 (by decide)

/-- Claim C2 (amended): a send (or dynamic command call) while not
connected is rejected synchronously with the not-connected error and
registers nothing - the correlation table, timers and settlement log
are untouched - but when the payload carries no correlation id, a fresh
one is generated (and the token attached) before the check. -/
theorem send_not_connected (en : Engine) (ext : Option String) (w : Bool)
    (h : en.connected = false) :
    (sendAux en ext w).1 = SendRes.notConnected ∧
    (sendAux en ext w).2
      = { en with
          nextId := match ext with | none => en.nextId + 1 | some _ => en.nextId } := by
  cases en with
  | mk c al ec cg tf ta se pe ti fu ns ni =>
    simp only [Engine.connected] at h
    subst h
    cases ext <;> simp [sendAux]

/-- Witness for C2 (amended) on the freshly constructed engine. -/
theorem send_not_connected_witness :
    (sendAux initEngine (some "x") true).1 = SendRes.notConnected :=
  (send_not_connected initEngine (some "x") true (by decide)).1

/-! ### C3: error counter resets -/

/-- `reconnect()` never touches the error counter. -/
theorem reconnectProc_errorCount (en : Engine) :
    (reconnectProc en).errorCount = en.errorCount := by
  unfold reconnectProc
  split <;> rfl

/-- `send` never touches the error counter. -/
theorem sendAux_errorCount (en : Engine) (ext : Option String) (w : Bool) :
    ((sendAux en ext w).2).errorCount = en.errorCount := by
  cases ext <;> simp only [sendAux] <;> split <;> (try split) <;> rfl

/-- Claim C3 is false on the code: `createSocket`, run when the
reconnect timer fires, also resets the counter to zero - here from 1 to
0 with no connect event in between. -/
theorem error_counter_reset_by_timer :
    ((run [Ev.sockError]).errorCount = 1 ∧
      (step (run [Ev.sockError]) Ev.reconnectFire).errorCount = 0) ∧
    ¬ claimC3Prop := by
  refine ⟨by decide, fun h => ?_⟩
  have h2 := h [Ev.sockError] Ev.reconnectFire (by decide) (by decide)
  exact absurd h2 (by decide)

/-- Claim C3 (amended): every socket error increments the counter by
one, and the only transitions that reset a nonzero counter to zero are
the socket's connect event and the reconnect-timer firing (which runs
`createSocket`). -/
theorem error_counter_transitions (en : Engine) (ev : Ev) :
    (step en Ev.sockError).errorCount = en.errorCount + 1 ∧
    ((step en ev).errorCount = 0 →
      en.errorCount = 0 ∨ ev = Ev.sockConnect ∨ ev = Ev.reconnectFire) := by
  have herr : (step en Ev.sockError).errorCount = en.errorCount + 1 := by
    simp only [step]
    split
    · rw [reconnectProc_errorCount]
    · split <;> rfl
  refine ⟨herr, ?_⟩
  intro h0
  cases ev with
  | sockConnect => exact Or.inr (Or.inl rfl)
  | reconnectFire => exact Or.inr (Or.inr rfl)
  | sockError => omega
  | sockTimeout =>
    left
    simp only [step] at h0
    split at h0
    · rw [reconnectProc_errorCount] at h0; exact h0
    · exact h0
  | sockClose =>
    left
    simp only [step] at h0
    split at h0
    · rw [reconnectProc_errorCount] at h0; exact h0
    · exact h0
  | dataResponse e =>
    left
    simp only [step] at h0
    split at h0 <;> exact h0
  | recvNotify t => exact Or.inl h0
  | sendCmd ext w =>
    left
    simp only [step] at h0
    rw [sendAux_errorCount] at h0
    exact h0
  | respTimeout s =>
    left
    simp only [step] at h0
    split at h0 <;> exact h0
  | destroy => exact Or.inl h0

/-- Witness for C3 (amended): on the freshly constructed engine, the
`destroy` transition leaves a zero counter at zero. -/
theorem error_counter_transitions_witness :
    initEngine.errorCount = 0 ∨ Ev.destroy = Ev.sockConnect ∨
      Ev.destroy = Ev.reconnectFire :=
  (error_counter_transitions initEngine Ev.destroy).2 (by decide)

/-! ### C4: circuit breaker -/

/-- Claim C4 fails on the code (code bug): after the tenth consecutive
error trips the breaker (`alive = false`, logged as stopping
reconnection), the reconnect attempt scheduled by the first error still
fires, and `createSocket` resets `alive` to true and the counter to
zero, so a later connect event makes `isConnected()` true again. -/
theorem circuit_breaker_resurrected :
    ((run (List.replicate 10 Ev.sockError)).errorCount = 10 ∧
      (run (List.replicate 10 Ev.sockError)).alive = false ∧
      (run (List.replicate 10 Ev.sockError)).timerArmed = true) ∧
    (run (List.replicate 10 Ev.sockError ++ [Ev.reconnectFire])).alive = true ∧
    (run (List.replicate 10 Ev.sockError ++ [Ev.reconnectFire, Ev.sockConnect])).connected
      = true ∧
    ¬ claimC4Prop := by
  refine ⟨by decide, by decide, by decide, fun h => ?_⟩
  have h2 := h (List.replicate 10 Ev.sockError) [Ev.reconnectFire, Ev.sockConnect]
    (by decide)
  exact absurd h2 (by decide)

/-! ### C7: dedup cache -/

/-- The dedup fold evaluated on one more token. -/
theorem dedupRun_concat (s ts : List JVal) (t : JVal) :
    dedupRun s (ts ++ [t]) = (dedupInsert (dedupRun s ts) t).2 := by
  simp [dedupRun, List.foldl_concat]

/-- `dedupInsert` on a duplicate token is a no-op with no publish. -/
theorem dedupInsert_dup (seen : List JVal) (t : JVal) (ht : t ∈ seen) :
    dedupInsert seen t = (false, seen) := by
  unfold dedupInsert
  rw [if_pos (by simpa [List.elem_iff] using ht)]

/-- `dedupInsert` on a fresh token publishes. -/
theorem dedupInsert_fresh (seen : List JVal) (t : JVal) (ht : t ∉ seen) :
    (dedupInsert seen t).1 = true := by
  unfold dedupInsert
  rw [if_neg (by simpa [List.elem_iff] using ht)]

/-- The token just inserted is in the cache (eviction only removes the
head of a cache that already held 10000 other tokens). -/
theorem dedupInsert_mem (seen : List JVal) (t : JVal) (ht : t ∉ seen) :
    t ∈ (dedupInsert seen t).2 := by
  unfold dedupInsert
  rw [if_neg (by simpa [List.elem_iff] using ht)]
  show t ∈ if 10000 < (seen ++ [t]).length then (seen ++ [t]).tail else seen ++ [t]
  by_cases hc : 10000 < (seen ++ [t]).length
  · have hne : seen ≠ [] := by
      intro h0
      rw [h0] at hc
      simp at hc
    rw [if_pos hc, List.tail_append_singleton_of_ne_nil hne]
    simp
  · rw [if_neg hc]
    simp

set_option maxRecDepth 4000

/-- Contents of the cache after feeding a duplicate-free token sequence
into an empty cache: exactly the last (at most) 10000 of the tokens. -/
theorem dedupRun_nodup (ds : List JVal) (h : ds.Nodup) :
    dedupRun [] ds = ds.drop (ds.length - 10000) := by
  induction ds using List.reverseRecOn with
  | nil => rfl
  | append_singleton ds d ih =>
    have hds : ds.Nodup := (List.nodup_append.mp h).1
    have hd : d ∉ ds := by
      intro hmem
      exact (List.nodup_append.mp h).2.2 hmem (List.mem_singleton.mpr rfl)
    rw [dedupRun_concat, ih hds]
    have hdrop : d ∉ ds.drop (ds.length - 10000) := fun hm =>
      hd (List.drop_subset _ _ hm)
    unfold dedupInsert
    rw [if_neg (by simpa [List.elem_iff] using hdrop)]
    dsimp only
    by_cases hlen : ds.length < 10000
    · have hk : ds.length - 10000 = 0 := by omega
      rw [if_neg (by simp only [List.length_append, List.length_drop,
        List.length_cons, List.length_nil]; omega)]
      have hk2 : (ds ++ [d]).length - 10000 = 0 := by
        simp only [List.length_append, List.length_cons, List.length_nil]
        omega
      rw [hk, hk2, List.drop_zero, List.drop_zero]
    · push_neg at hlen
      have hlendrop : (ds.drop (ds.length - 10000)).length = 10000 := by
        simp only [List.length_drop]; omega
      rw [if_pos (by simp only [List.length_append, hlendrop, List.length_cons,
        List.length_nil]; omega)]
      have hne : ds.drop (ds.length - 10000) ≠ [] := by
        intro h0
        rw [h0] at hlendrop
        simp at hlendrop
      rw [List.tail_append_singleton_of_ne_nil hne, List.tail_drop]
      have harith : (ds ++ [d]).length - 10000 ≤ ds.length := by
        simp only [List.length_append, List.length_cons, List.length_nil]
        omega
      rw [List.drop_append_of_le_length harith]
      have harith2 : (ds ++ [d]).length - 10000 = ds.length - 10000 + 1 := by
        simp only [List.length_append, List.length_cons, List.length_nil]
        omega
      rw [harith2]

/-- Claim C7: a notification whose token is already in the dedup cache
publishes nothing; the same token arriving twice in sequence proceeds to
publication exactly once; the cache is capacity-bounded at 10000 tokens
with the earliest-inserted evicted on overflow, so after inserting
10001 distinct tokens the earliest-inserted one is no longer seen. -/
theorem dedup_cache_behavior :
    (∀ (seen : List JVal) (t : JVal), t ∈ seen →
      dedupInsert seen t = (false, seen)) ∧
    (∀ (seen : List JVal) (t : JVal), t ∉ seen →
      (dedupInsert seen t).1 = true ∧
      (dedupInsert (dedupInsert seen t).2 t).1 = false) ∧
    (∀ ds : List JVal, ds.Nodup → ds.length = 10001 →
      ∀ d, ds.head? = some d → d ∉ dedupRun [] ds) := by
  refine ⟨dedupInsert_dup, ?_, ?_⟩
  · intro seen t ht
    refine ⟨dedupInsert_fresh seen t ht, ?_⟩
    have hmem := dedupInsert_mem seen t ht
    rw [dedupInsert_dup _ _ hmem]
  · intro ds hnd hlen d hd
    cases ds with
    | nil => cases hd
    | cons d0 rest =>
      simp only [List.head?_cons, Option.some.injEq] at hd
      subst hd
      have hd2 : d0 ∉ rest := (List.nodup_cons.mp hnd).1
      rw [dedupRun_nodup _ hnd, hlen]
      have h1 : (10001 : Nat) - 10000 = 1 := by omega
      rw [h1]
      simpa using hd2

/-- Witness for C7: a fresh token publishes, its immediate duplicate
does not, and token 0 is evicted after the 10001 distinct tokens
0..10000. -/
theorem dedup_cache_witness :
    ((dedupInsert [] (JVal.num 0)).1 = true ∧
      (dedupInsert (dedupInsert [] (JVal.num 0)).2 (JVal.num 0)).1 = false) ∧
    JVal.num 0 ∉ dedupRun [] (List.map (fun n : Nat => JVal.num n) (List.range 10001)) := by
  constructor
  · exact dedup_cache_behavior.2.1 [] (JVal.num 0) (List.not_mem_nil _)
  · refine dedup_cache_behavior.2.2 _ ?_ ?_ _ ?_
    · refine List.Nodup.map ?_ (List.nodup_range 10001)
      intro a b hab
      injection hab with h2
      exact Nat.cast_injective h2
    · rw [List.length_map, List.length_range]
    · rw [List.range_succ_eq_map]
      rfl

/-! ### C1 and C5: the engine invariant and the pending-request sweeps -/

/-- Membership in an updated `pendingRequests` map. -/
theorem setPending_mem : ∀ {m : List (String × Nat)} {e : String} {s : Nat}
    {p : String × Nat}, p ∈ setPending m e s → p = (e, s) ∨ p ∈ m := by
  intro m
  induction m with
  | nil =>
    intro e s p hp
    simpa [setPending] using hp
  | cons q rest ih =>
    intro e s p hp
    by_cases hq : q.1 = e
    · rw [setPending, if_pos hq] at hp
      rcases List.mem_cons.mp hp with hp | hp
      · exact Or.inl hp
      · exact Or.inr (List.mem_cons_of_mem _ hp)
    · rw [setPending, if_neg hq] at hp
      rcases List.mem_cons.mp hp with rfl | hp
      · exact Or.inr (List.mem_cons_self _ _)
      · rcases ih hp with hp2 | hp2
        · exact Or.inl hp2
        · exact Or.inr (List.mem_cons_of_mem _ hp2)

/-- Serials of an updated map are among the new serial and the old ones. -/
theorem setPending_snd_subset (m : List (String × Nat)) (e : String) (s : Nat) :
    ((setPending m e s).map (fun p => p.2)) ⊆ s :: m.map (fun p => p.2) := by
  intro x hx
  rcases List.mem_map.mp hx with ⟨p, hp, rfl⟩
  rcases setPending_mem hp with rfl | hp2
  · exact List.mem_cons_self _ _
  · exact List.mem_cons_of_mem _ (List.mem_map_of_mem _ hp2)

/-- Keys of an updated map are among the new key and the old ones. -/
theorem setPending_fst_subset (m : List (String × Nat)) (e : String) (s : Nat) :
    ((setPending m e s).map (fun p => p.1)) ⊆ e :: m.map (fun p => p.1) := by
  intro x hx
  rcases List.mem_map.mp hx with ⟨p, hp, rfl⟩
  rcases setPending_mem hp with rfl | hp2
  · exact List.mem_cons_self _ _
  · exact List.mem_cons_of_mem _ (List.mem_map_of_mem _ hp2)

/-- `Map.set` keeps the keys duplicate-free. -/
theorem setPending_fst_nodup {m : List (String × Nat)} (e : String) (s : Nat)
    (h : (m.map (fun p => p.1)).Nodup) :
    ((setPending m e s).map (fun p => p.1)).Nodup := by
  induction m with
  | nil => simp [setPending]
  | cons q rest ih =>
    rw [List.map_cons, List.nodup_cons] at h
    by_cases hq : q.1 = e
    · rw [setPending, if_pos hq]
      rw [List.map_cons, List.nodup_cons]
      exact ⟨hq ▸ h.1, h.2⟩
    · rw [setPending, if_neg hq]
      rw [List.map_cons, List.nodup_cons]
      refine ⟨fun hmem => ?_, ih h.2⟩
      rcases List.mem_cons.mp (setPending_fst_subset rest e s hmem) with h2 | h2
      · exact hq h2
      · exact h.1 h2

/-- `Map.set` with a fresh serial keeps the serials duplicate-free. -/
theorem setPending_snd_nodup {m : List (String × Nat)} (e : String) {s : Nat}
    (h : (m.map (fun p => p.2)).Nodup) (hs : s ∉ m.map (fun p => p.2)) :
    ((setPending m e s).map (fun p => p.2)).Nodup := by
  induction m with
  | nil => simp [setPending]
  | cons q rest ih =>
    rw [List.map_cons, List.nodup_cons] at h
    have hs2 : s ∉ rest.map (fun p => p.2) := fun h2 =>
      hs (List.mem_cons_of_mem _ h2)
    by_cases hq : q.1 = e
    · rw [setPending, if_pos hq]
      rw [List.map_cons, List.nodup_cons]
      exact ⟨hs2, h.2⟩
    · rw [setPending, if_neg hq]
      rw [List.map_cons, List.nodup_cons]
      refine ⟨fun hmem => ?_, ih h.2 hs2⟩
      rcases List.mem_cons.mp (setPending_snd_subset rest e s hmem) with h2 | h2
      · exact hs (h2 ▸ List.mem_cons_self _ _)
      · exact h.1 h2

/-- Deleting the key just set deletes exactly what deleting it from the
original map deletes. -/
theorem erase_setPending (m : List (String × Nat)) (e : String) (s : Nat) :
    erasePending (setPending m e s) e = erasePending m e := by
  induction m with
  | nil => simp [setPending, erasePending]
  | cons q rest ih =>
    by_cases hq : q.1 = e
    · rw [setPending, if_pos hq]
      simp only [erasePending, List.filter_cons] at ih ⊢
      simp [hq]
    · rw [setPending, if_neg hq]
      simp only [erasePending, List.filter_cons] at ih ⊢
      simp only [decide_not] at ih ⊢
      simp [hq, ih]

/-- An engine whose request bookkeeping agrees with an invariant-holding
engine satisfies the invariant. -/
theorem inv_of_fields {en en' : Engine} (h : Inv en)
    (hp : en'.pending = en.pending) (ht : en'.timers = en.timers)
    (hf : en'.futures = en.futures) (hn : en'.nextSerial = en.nextSerial) :
    Inv en' := by
  cases h
  constructor <;> simp only [hp, ht, hf, hn] <;> assumption

/-- The connection-loss and destroy sweeps preserve the invariant: all
pending entries move to the settlement log, their timers are cleared,
and the map is emptied. -/
theorem inv_sweep {en en' : Engine} (o : Outcome) (h : Inv en)
    (hp : en'.pending = [])
    (ht : en'.timers
      = en.timers.filter (fun t => ¬ (en.pending.map (fun p => p.2)).contains t.1))
    (hf : en'.futures = en.futures ++ en.pending.map (fun p => (p.2, o)))
    (hn : en'.nextSerial = en.nextSerial) :
    Inv en' := by
  have hkeys : en'.futures.map (fun f => f.1)
      = en.futures.map (fun f => f.1) ++ en.pending.map (fun p => p.2) := by
    rw [hf, List.map_append, List.map_map]
    rfl
  have htsub : ∀ x ∈ en'.timers, x ∈ en.timers := by
    intro x hx
    rw [ht] at hx
    exact List.mem_of_mem_filter hx
  have htmem : ∀ x ∈ en'.timers, (x.1 ∈ en.pending.map (fun p => p.2)) → False := by
    intro x hx hmem
    rw [ht] at hx
    have h2 := List.of_mem_filter hx
    simp only [decide_eq_true_eq, List.elem_iff, Bool.not_eq_true'] at h2
    exact h2 hmem
  constructor
  · rw [hp]; exact List.nodup_nil
  · rw [hp]; exact List.nodup_nil
  · rw [ht]
    exact ((List.filter_sublist _).map _).nodup h.timersNodup
  · intro s hs
    rcases List.mem_map.mp hs with ⟨t, hti, rfl⟩
    rw [hn]
    exact h.timersLt _ (List.mem_map_of_mem _ (htsub _ hti))
  · rw [hp]
    intro s hs
    cases hs
  · rw [hkeys, hn]
    intro s hs
    rcases List.mem_append.mp hs with hs | hs
    · exact h.futuresLt _ hs
    · exact h.pendingLt _ hs
  · rw [hp]
    intro s hs
    cases hs
  · rw [hp]
    intro p hp2
    cases hp2
  · rw [hkeys]
    rw [List.nodup_append]
    refine ⟨h.futuresNodup, h.pendingSerNodup, ?_⟩
    intro s hs1 hs2
    exact h.futuresDisjTimers _ hs1 (h.pendingSubTimers _ hs2)
  · rw [hkeys]
    intro s hs hmem
    rcases List.mem_map.mp hmem with ⟨t, hti, rfl⟩
    rcases List.mem_append.mp hs with hs | hs
    · exact h.futuresDisjTimers _ hs (List.mem_map_of_mem _ (htsub _ hti))
    · exact htmem _ hti hs
  · rw [hn, hkeys]
    intro s hs
    rcases h.covered s hs with hc | hc
    · by_cases hmem : s ∈ en.pending.map (fun p => p.2)
      · exact Or.inr (List.mem_append.mpr (Or.inr hmem))
      · left
        rcases List.mem_map.mp hc with ⟨t, hti, rfl⟩
        refine List.mem_map_of_mem _ ?_
        rw [ht]
        refine List.mem_filter.mpr ⟨hti, ?_⟩
        simp only [decide_eq_true_eq, List.elem_iff, Bool.not_eq_true']
        exact hmem
    · exact Or.inr (List.mem_append.mpr (Or.inl hc))

/-- Members of a map after a key deletion. -/
theorem erasePending_subset {m : List (String × Nat)} {e : String}
    {p : String × Nat} (hp : p ∈ erasePending m e) : p ∈ m ∧ ¬ p.1 = e := by
  have h1 := List.mem_of_mem_filter hp
  have h2 := List.of_mem_filter hp
  simp only [decide_eq_true_eq] at h2
  exact ⟨h1, h2⟩

/-- Members of the timer set after clearing one timer. -/
theorem eraseTimer_subset {ts : List (Nat × String)} {s : Nat}
    {t : Nat × String} (ht : t ∈ eraseTimer ts s) : t ∈ ts ∧ ¬ t.1 = s := by
  have h1 := List.mem_of_mem_filter ht
  have h2 := List.of_mem_filter ht
  simp only [decide_eq_true_eq] at h2
  exact ⟨h1, h2⟩

/-- The cleared timer's serial is gone. -/
theorem eraseTimer_not_mem (ts : List (Nat × String)) (s : Nat) :
    s ∉ (eraseTimer ts s).map (fun t => t.1) := by
  intro hmem
  rcases List.mem_map.mp hmem with ⟨t, hti, h1⟩
  exact (eraseTimer_subset hti).2 h1

/-- Other serials survive clearing one timer. -/
theorem eraseTimer_mem {ts : List (Nat × String)} {s s0 : Nat}
    (h0 : s0 ∈ ts.map (fun t => t.1)) (hne : ¬ s0 = s) :
    s0 ∈ (eraseTimer ts s).map (fun t => t.1) := by
  rcases List.mem_map.mp h0 with ⟨t, hti, rfl⟩
  refine List.mem_map_of_mem _ (List.mem_filter.mpr ⟨hti, ?_⟩)
  simpa using hne

/-- A successful `pendingRequests.get`. -/
theorem lookupPending_some {m : List (String × Nat)} {e : String} {s : Nat}
    (h : lookupPending m e = some s) : ∃ p ∈ m, p.1 = e ∧ p.2 = s := by
  unfold lookupPending at h
  cases hf : m.find? (fun p => p.1 = e) with
  | none => rw [hf] at h; cases h
  | some pe =>
    rw [hf] at h
    simp only [Option.map] at h
    injection h with h
    refine ⟨pe, List.mem_of_find?_eq_some hf, ?_, h⟩
    have h2 := List.find?_some hf
    simpa using h2

/-- Settling one registered request - a matching response or a firing
request timer - preserves the invariant: the entry at key `e` leaves the
map, the timer with serial `s` is cleared, and `(s, o)` is logged. -/
theorem inv_remove {en en' : Engine} {e : String} {s : Nat} (o : Outcome)
    (h : Inv en)
    (hA : s ∈ en.timers.map (fun t => t.1))
    (hB : ∀ p ∈ en.pending, p.2 = s → p.1 = e)
    (hp : en'.pending = erasePending en.pending e)
    (ht : en'.timers = eraseTimer en.timers s)
    (hf : en'.futures = en.futures ++ [(s, o)])
    (hn : en'.nextSerial = en.nextSerial) : Inv en' := by
  have hslt : s < en.nextSerial := h.timersLt _ hA
  have hsfut : s ∉ en.futures.map (fun f => f.1) := fun hc =>
    h.futuresDisjTimers _ hc hA
  have hkeys : en'.futures.map (fun f => f.1)
      = en.futures.map (fun f => f.1) ++ [s] := by
    rw [hf, List.map_append]
    rfl
  constructor
  · rw [hp]
    exact ((List.filter_sublist _).map _).nodup h.pendingKeyNodup
  · rw [hp]
    exact ((List.filter_sublist _).map _).nodup h.pendingSerNodup
  · rw [ht]
    exact ((List.filter_sublist _).map _).nodup h.timersNodup
  · rw [ht, hn]
    intro s0 hs0
    rcases List.mem_map.mp hs0 with ⟨t, hti, rfl⟩
    exact h.timersLt _ (List.mem_map_of_mem _ (eraseTimer_subset hti).1)
  · rw [hp, hn]
    intro s0 hs0
    rcases List.mem_map.mp hs0 with ⟨p, hpi, rfl⟩
    exact h.pendingLt _ (List.mem_map_of_mem _ (erasePending_subset hpi).1)
  · rw [hkeys, hn]
    intro s0 hs0
    rcases List.mem_append.mp hs0 with hs0 | hs0
    · exact h.futuresLt _ hs0
    · rcases List.mem_singleton.mp hs0 with rfl
      exact hslt
  · rw [hp, ht]
    intro s0 hs0
    rcases List.mem_map.mp hs0 with ⟨p, hpi, rfl⟩
    rcases erasePending_subset hpi with ⟨hpi2, hpe⟩
    have hne : ¬ p.2 = s := fun h2 => hpe (hB p hpi2 h2)
    exact eraseTimer_mem (h.pendingSubTimers _ (List.mem_map_of_mem _ hpi2)) hne
  · rw [hp, ht]
    intro p hpi t hti
    exact h.pendingTimerKey p (erasePending_subset hpi).1 t (eraseTimer_subset hti).1
  · rw [hkeys]
    rw [List.nodup_append]
    refine ⟨h.futuresNodup, List.nodup_singleton s, ?_⟩
    intro x hx1 hx2
    rcases List.mem_singleton.mp hx2 with rfl
    exact hsfut hx1
  · rw [hkeys, ht]
    intro s0 hs0
    rcases List.mem_append.mp hs0 with hs0 | hs0
    · intro hmem
      rcases List.mem_map.mp hmem with ⟨t, hti, rfl⟩
      exact h.futuresDisjTimers _ hs0
        (List.mem_map_of_mem _ (eraseTimer_subset hti).1)
    · rcases List.mem_singleton.mp hs0 with rfl
      exact eraseTimer_not_mem _ _
  · rw [hn, hkeys, ht]
    intro s0 hs0
    rcases h.covered s0 hs0 with hc | hc
    · by_cases hse : s0 = s
      · subst hse
        exact Or.inr (List.mem_append.mpr (Or.inr (List.mem_singleton.mpr rfl)))
      · exact Or.inl (eraseTimer_mem hc hse)
    · exact Or.inr (List.mem_append.mpr (Or.inl hc))

/-- Registering a request in `send` - arming the fresh timer, storing
the entry, advancing the serial supply - preserves the invariant. -/
theorem inv_registered (en : Engine) (eid : String) (h : Inv en) :
    Inv { en with
      nextSerial := en.nextSerial + 1,
      timers := en.timers ++ [(en.nextSerial, eid)],
      pending := setPending en.pending eid en.nextSerial } := by
  have hfreshT : en.nextSerial ∉ en.timers.map (fun t => t.1) := fun hc =>
    absurd (h.timersLt _ hc) (by omega)
  have hfreshP : en.nextSerial ∉ en.pending.map (fun p => p.2) := fun hc =>
    absurd (h.pendingLt _ hc) (by omega)
  have htkeys : (en.timers ++ [(en.nextSerial, eid)]).map (fun t => t.1)
      = en.timers.map (fun t => t.1) ++ [en.nextSerial] := by
    rw [List.map_append]
    rfl
  constructor <;> dsimp only
  · exact setPending_fst_nodup eid en.nextSerial h.pendingKeyNodup
  · exact setPending_snd_nodup eid h.pendingSerNodup hfreshP
  · rw [htkeys, List.nodup_append]
    refine ⟨h.timersNodup, List.nodup_singleton _, ?_⟩
    intro x hx1 hx2
    rcases List.mem_singleton.mp hx2 with rfl
    exact hfreshT hx1
  · rw [htkeys]
    intro s0 hs0
    rcases List.mem_append.mp hs0 with hs0 | hs0
    · have := h.timersLt _ hs0
      omega
    · rcases List.mem_singleton.mp hs0 with rfl
      omega
  · intro s0 hs0
    rcases List.mem_cons.mp (setPending_snd_subset _ _ _ hs0) with rfl | hs0
    · omega
    · have := h.pendingLt _ hs0
      omega
  · intro s0 hs0
    have := h.futuresLt _ hs0
    omega
  · rw [htkeys]
    intro s0 hs0
    rcases List.mem_cons.mp (setPending_snd_subset _ _ _ hs0) with rfl | hs0
    · exact List.mem_append.mpr (Or.inr (List.mem_singleton.mpr rfl))
    · exact List.mem_append.mpr (Or.inl (h.pendingSubTimers _ hs0))
  · intro p hpi t hti
    rcases List.mem_append.mp hti with hti | hti
    · rcases setPending_mem hpi with rfl | hpi2
      · intro h2
        exact absurd (h2 ▸ h.timersLt _ (List.mem_map_of_mem _ hti)) (by omega)
      · exact h.pendingTimerKey p hpi2 t hti
    · rcases List.mem_singleton.mp hti with rfl
      rcases setPending_mem hpi with rfl | hpi2
      · intro _
        rfl
      · intro h2
        exact absurd (h2 ▸ h.pendingLt _ (List.mem_map_of_mem _ hpi2)) (by omega)
  · exact h.futuresNodup
  · rw [htkeys]
    intro s0 hs0 hmem
    rcases List.mem_append.mp hmem with hmem | hmem
    · exact h.futuresDisjTimers _ hs0 hmem
    · rcases List.mem_singleton.mp hmem with rfl
      exact absurd (h.futuresLt _ hs0) (by omega)
  · rw [htkeys]
    intro s0 hs0
    by_cases hse : s0 = en.nextSerial
    · subst hse
      exact Or.inl (List.mem_append.mpr (Or.inr (List.mem_singleton.mpr rfl)))
    · rcases h.covered s0 (by omega) with hc | hc
      · exact Or.inl (List.mem_append.mpr (Or.inl hc))
      · exact Or.inr hc

/-- `send` preserves the invariant on every path: not-connected
rejection, successful registration, and registration immediately undone
by a caught write error. -/
theorem inv_send (en : Engine) (ext : Option String) (w : Bool) (h : Inv en) :
    Inv (sendAux en ext w).2 := by
  have hwf : ∀ (en1 : Engine) (eid : String), Inv en1 →
      Inv {
        connected := en1.connected, alive := en1.alive,
        errorCount := en1.errorCount, connecting := en1.connecting,
        timerField := en1.timerField, timerArmed := en1.timerArmed,
        seen := en1.seen,
        pending := erasePending (setPending en1.pending eid en1.nextSerial) eid,
        timers := eraseTimer (en1.timers ++ [(en1.nextSerial, eid)]) en1.nextSerial,
        futures := en1.futures ++ [(en1.nextSerial, Outcome.writeErr)],
        nextSerial := en1.nextSerial + 1, nextId := en1.nextId } := by
    intro en1 eid h1
    refine inv_remove Outcome.writeErr (inv_registered en1 eid h1) ?_ ?_
      rfl rfl rfl rfl
    · show en1.nextSerial
        ∈ (en1.timers ++ [(en1.nextSerial, eid)]).map (fun t => t.1)
      exact List.mem_map_of_mem _
        (List.mem_append.mpr (Or.inr (List.mem_singleton.mpr rfl)))
    · intro p hpi hps
      rcases setPending_mem hpi with rfl | hpi2
      · rfl
      · exact absurd (hps ▸ h1.pendingLt _ (List.mem_map_of_mem _ hpi2))
          (by omega)
  unfold sendAux
  cases ext with
  | none =>
    dsimp only
    have h1 : Inv { en with nextId := en.nextId + 1 } :=
      inv_of_fields h rfl rfl rfl rfl
    split
    · split
      · exact inv_registered _ _ h1
      · exact hwf _ _ h1
    · exact h1
  | some e0 =>
    dsimp only
    split
    · split
      · exact inv_registered _ _ h
      · exact hwf _ _ h
    · exact h

/-- `reconnect()` preserves the invariant. -/
theorem inv_reconnectProc (en : Engine) (h : Inv en) :
    Inv (reconnectProc en) := by
  unfold reconnectProc
  split
  · exact h
  · exact inv_sweep Outcome.connLost h rfl rfl rfl rfl

/-- Every event handler preserves the invariant. -/
theorem inv_step (en : Engine) (ev : Ev) (h : Inv en) : Inv (step en ev) := by
  cases ev with
  | sockConnect =>
    simp only [step]
    split
    · exact inv_of_fields h rfl rfl rfl rfl
    · exact h
  | sockTimeout =>
    simp only [step]
    split
    · exact inv_reconnectProc en h
    · exact h
  | sockClose =>
    simp only [step]
    have h1 : Inv { en with connected := false } := inv_of_fields h rfl rfl rfl rfl
    split
    · exact inv_reconnectProc _ h1
    · exact h1
  | sockError =>
    simp only [step]
    have h1 : Inv { en with errorCount := en.errorCount + 1 } :=
      inv_of_fields h rfl rfl rfl rfl
    split
    · exact inv_reconnectProc _ h1
    · split
      · exact inv_of_fields h1 rfl rfl rfl rfl
      · exact h1
  | dataResponse e =>
    simp only [step]
    split
    · next s heq =>
      rcases lookupPending_some heq with ⟨pe, hpe, hpk, hps⟩
      have hsmem : s ∈ en.pending.map (fun p => p.2) :=
        hps ▸ List.mem_map_of_mem _ hpe
      refine inv_remove Outcome.resolved h (h.pendingSubTimers _ hsmem) ?_
        rfl rfl rfl rfl
      intro p hpi hp2
      have hpeq : p = pe :=
        List.inj_on_of_nodup_map h.pendingSerNodup hpi hpe (by rw [hp2, hps])
      rw [hpeq, hpk]
    · exact h
  | recvNotify t => exact inv_of_fields h rfl rfl rfl rfl
  | sendCmd ext w => exact inv_send en ext w h
  | respTimeout s =>
    simp only [step]
    split
    · next te heq =>
      have hmem := List.mem_of_find?_eq_some heq
      have hts : te.1 = s := by
        have h2 := List.find?_some heq
        simpa using h2
      refine inv_remove Outcome.timedOut h
        (hts ▸ List.mem_map_of_mem _ hmem) ?_ rfl rfl rfl rfl
      intro p hpi hp2
      exact h.pendingTimerKey p hpi te hmem (hts ▸ hp2)
    · exact h
  | reconnectFire =>
    simp only [step]
    split
    · exact inv_of_fields h rfl rfl rfl rfl
    · exact h
  | destroy => exact inv_sweep Outcome.destroyed h rfl rfl rfl rfl

/-- The freshly constructed engine satisfies the invariant. -/
theorem inv_init : Inv initEngine := by
  constructor <;> simp [initEngine, createSocketProc]

/-- Every reachable engine state satisfies the invariant. -/
theorem reachable_inv {en : Engine} (h : Reachable en) : Inv en := by
  induction h with
  | init => exact inv_init
  | step ev _ ih => exact inv_step _ ev ih

/-- Running any event sequence from construction stays reachable. -/
theorem reachable_run (evs : List Ev) : Reachable (run evs) := by
  have hgen : ∀ (l : List Ev) (en : Engine), Reachable en →
      Reachable (l.foldl step en) := by
    intro l
    induction l with
    | nil => exact fun en h => h
    | cons e rest ih =>
      intro en h
      exact ih _ (Reachable.step e h)
  exact hgen evs initEngine Reachable.init

/-- Claim C1 is false on the code as enumerated: a registered request's
future can also be completed by the rejection with a caught
`socket.write` error, a fourth cause outside {response, timeout,
connection-lost/destroyed} - here the first request, registered while
connected, settles with the write error. -/
theorem write_error_settles_future :
    ((run [Ev.sockConnect, Ev.sendCmd none false]).futures
      = [(0, Outcome.writeErr)]) ∧ ¬ claimC1Prop := by
  refine ⟨by decide, fun h => ?_⟩
  have h2 := h [Ev.sockConnect, Ev.sendCmd none false] 0 Outcome.writeErr (by decide)
  rcases h2 with h2 | h2 | h2 | h2 <;> exact absurd h2 (by decide)

/-- Claim C1 (amended): in every reachable state, the settlement log
has no duplicate serials (each registered request's future is completed
at most once - by a matching response, a timeout, a connection-lost or
destroyed rejection, or a synchronous write-failure rejection,
whichever occurs first); a settled request has no pending entry and no
armed timer left, so nothing can complete it again; a response whose
correlation id has no pending entry leaves the engine (hence every
future) unchanged; and every registered but unsettled request still has
its response timer armed, so one of the completing causes remains
enabled. -/
theorem request_settled_exactly_once (en : Engine) (h : Reachable en) :
    ((en.futures.map (fun f => f.1)).Nodup) ∧
    (∀ s ∈ en.futures.map (fun f => f.1),
      s ∉ en.timers.map (fun t => t.1) ∧ s ∉ en.pending.map (fun p => p.2)) ∧
    (∀ e, lookupPending en.pending e = none → step en (Ev.dataResponse e) = en) ∧
    (∀ s, s < en.nextSerial →
      s ∈ en.timers.map (fun t => t.1) ∨ s ∈ en.futures.map (fun f => f.1)) := by
  have hInv := reachable_inv h
  refine ⟨hInv.futuresNodup, ?_, ?_, hInv.covered⟩
  · intro s hs
    exact ⟨hInv.futuresDisjTimers _ hs,
      fun hmem => hInv.futuresDisjTimers _ hs (hInv.pendingSubTimers _ hmem)⟩
  · intro e hl
    simp only [step, hl]

/-- Witness for C1 (amended) at a concrete reachable state in which one
request was registered and settled by its timeout. -/
theorem request_settled_witness :
    ((run [Ev.sockConnect, Ev.sendCmd none true, Ev.respTimeout 0]).futures.map
      (fun f => f.1)).Nodup :=
  (request_settled_exactly_once _ (reachable_run _)).1

/-- `reconnect()` when the engine is alive and no reconnect attempt is
pending: socket destroyed, dedup cache cleared, every pending request
rejected with the connection-lost error and its timer cleared, map
emptied, backoff timer armed. -/
theorem reconnectProc_swept (en : Engine) (halive : en.alive = true)
    (hfield : en.timerField = false) :
    reconnectProc en = { en with
      connecting := false, seen := [],
      futures := en.futures ++ en.pending.map (fun p => (p.2, Outcome.connLost)),
      timers := en.timers.filter
        (fun t => ¬ (en.pending.map (fun p => p.2)).contains t.1),
      pending := [], timerField := true, timerArmed := true } := by
  unfold reconnectProc
  rw [if_neg]
  simp [halive, hfield]

/-- No pending request's timer survives the sweep's timer clearing. -/
theorem swept_timers_not_mem (en : Engine) (p : String × Nat)
    (hp : p ∈ en.pending) :
    p.2 ∉ (en.timers.filter
      (fun t => ¬ (en.pending.map (fun p => p.2)).contains t.1)).map
        (fun t => t.1) := by
  intro hmem
  rcases List.mem_map.mp hmem with ⟨t, hti, heq⟩
  have h2 := List.of_mem_filter hti
  simp only [decide_eq_true_eq, List.elem_iff, Bool.not_eq_true'] at h2
  exact h2 (heq ▸ List.mem_map_of_mem _ hp)

/-- Claim C5 (amended): when a close, timeout, or (sub-threshold) error
event is handled while the engine is alive and no reconnect attempt is
already pending, every pending request's timer is cancelled and its
future rejected with the connection-lost error (distinct from the
timeout error), the correlation table is emptied and the dedup cache is
cleared.  (When the engine is no longer alive - destroyed or breaker
tripped - or a reconnect is already pending, the handlers skip this
sweep and pending requests are left to their individual timeouts.) -/
theorem disconnect_sweep (en : Engine)
    (halive : en.alive = true) (hfield : en.timerField = false) :
    ((step en Ev.sockClose).connected = false ∧
      (step en Ev.sockClose).pending = [] ∧
      (step en Ev.sockClose).seen = [] ∧
      (step en Ev.sockClose).futures
        = en.futures ++ en.pending.map (fun p => (p.2, Outcome.connLost)) ∧
      (∀ p ∈ en.pending,
        p.2 ∉ (step en Ev.sockClose).timers.map (fun t => t.1))) ∧
    ((step en Ev.sockTimeout).pending = [] ∧
      (step en Ev.sockTimeout).seen = [] ∧
      (step en Ev.sockTimeout).futures
        = en.futures ++ en.pending.map (fun p => (p.2, Outcome.connLost)) ∧
      (∀ p ∈ en.pending,
        p.2 ∉ (step en Ev.sockTimeout).timers.map (fun t => t.1))) ∧
    (en.errorCount + 1 < 10 →
      (step en Ev.sockError).pending = [] ∧
      (step en Ev.sockError).seen = [] ∧
      (step en Ev.sockError).futures
        = en.futures ++ en.pending.map (fun p => (p.2, Outcome.connLost)) ∧
      (∀ p ∈ en.pending,
        p.2 ∉ (step en Ev.sockError).timers.map (fun t => t.1))) := by
  have hclose : step en Ev.sockClose
      = reconnectProc { en with connected := false } := by
    simp only [step]
    rw [if_pos halive]
  have htimeout : step en Ev.sockTimeout = reconnectProc en := by
    simp only [step]
    rw [if_pos halive]
  have herror : en.errorCount + 1 < 10 →
      step en Ev.sockError
        = reconnectProc { en with errorCount := en.errorCount + 1 } := by
    intro hlt
    simp only [step]
    rw [if_pos]
    simp [hlt, halive]
  refine ⟨?_, ?_, ?_⟩
  · rw [hclose, reconnectProc_swept { en with connected := false } halive hfield]
    refine ⟨rfl, rfl, rfl, rfl, ?_⟩
    intro p hp
    exact swept_timers_not_mem { en with connected := false } p hp
  · rw [htimeout, reconnectProc_swept en halive hfield]
    refine ⟨rfl, rfl, rfl, ?_⟩
    intro p hp
    exact swept_timers_not_mem en p hp
  · intro hlt
    rw [herror hlt,
      reconnectProc_swept { en with errorCount := en.errorCount + 1 } halive hfield]
    refine ⟨rfl, rfl, rfl, ?_⟩
    intro p hp
    exact swept_timers_not_mem { en with errorCount := en.errorCount + 1 } p hp

/-- Witness for C5 (amended): the close event after a connect and one
registered request rejects that request with the connection-lost
error. -/
theorem disconnect_sweep_witness :
    (step (run [Ev.sockConnect, Ev.sendCmd none true]) Ev.sockClose).futures
      = (run [Ev.sockConnect, Ev.sendCmd none true]).futures
        ++ (run [Ev.sockConnect, Ev.sendCmd none true]).pending.map
          (fun p => (p.2, Outcome.connLost)) :=
  ((disconnect_sweep _ (by decide) (by decide)).1).2.2.2.1

/-- Claim C5 is false on the code as stated: when a reconnect attempt
is already pending, `reconnect()` returns before sweeping, so a request
registered after an error (the `connected` flag is still true) survives
the subsequent close event unrejected, with the dedup cache and the
correlation table untouched. -/
theorem sweep_skipped_when_reconnect_pending :
    ((run [Ev.sockConnect, Ev.sockError, Ev.sendCmd none true]).connected = true ∧
      (run [Ev.sockConnect, Ev.sockError, Ev.sendCmd none true]).pending
        = [("g0", 0)] ∧
      (step (run [Ev.sockConnect, Ev.sockError, Ev.sendCmd none true])
          Ev.sockClose).pending = [("g0", 0)] ∧
      (step (run [Ev.sockConnect, Ev.sockError, Ev.sendCmd none true])
          Ev.sockClose).futures = []) ∧
    ¬ claimC5Prop := by
  refine ⟨by decide, fun h => ?_⟩
  have h2 := h [Ev.sockConnect, Ev.sockError, Ev.sendCmd none true] Ev.sockClose
    (Or.inl rfl) (by decide)
  exact absurd h2.1 (by decide)

/-! ### C6: the framer -/

/-- A split result never collapses to the empty list of tokens. -/
theorem consHead_ne_nil (c : Char) (xs : List (List Char)) : consHead c xs ≠ [] := by
  cases xs <;> simp [consHead]

/-- `splitCRLF` at a leading delimiter. -/
theorem splitCRLF_crlf (l : List Char) :
    splitCRLF ('\r' :: '\n' :: l) = [] :: splitCRLF l := rfl

/-- `split` always returns at least one (possibly empty) token. -/
theorem splitCRLF_ne_nil (l : List Char) : splitCRLF l ≠ [] := by
  rw [splitCRLF.eq_def]
  split
  · simp
  · simp
  · exact consHead_ne_nil _ _

/-- `splitCRLF` at a character that does not start a delimiter. -/
theorem splitCRLF_cons (c : Char) (l : List Char)
    (h : ¬(c = '\r' ∧ l.head? = some '\n')) :
    splitCRLF (c :: l) = consHead c (splitCRLF l) := by
  rw [splitCRLF.eq_def]
  split <;> simp_all

/-- One unfolding of `lastIndexOf`. -/
theorem findLastCRLF_cons (c : Char) (l : List Char) :
    findLastCRLF (c :: l)
      = match findLastCRLF l with
        | some i => some (i + 1)
        | none => if c = '\r' ∧ l.head? = some '\n' then some 0 else none := rfl
/-- `consHead` touches only the first token. -/
theorem consHead_append (c : Char) (xs ys : List (List Char)) (hx : xs ≠ []) :
    consHead c (xs ++ ys) = consHead c xs ++ ys := by
  cases xs with
  | nil => exact absurd rfl hx
  | cons t ts => rfl

/-- Splitting around an explicit delimiter: the delimiter cannot
overlap itself, so the split of a concatenation through a delimiter is
the concatenation of the splits. -/
theorem splitCRLF_append_crlf (a b : List Char) :
    splitCRLF (a ++ '\r' :: '\n' :: b) = splitCRLF a ++ splitCRLF b := by
  suffices H : ∀ (n : Nat) (a : List Char), a.length ≤ n → ∀ b : List Char,
      splitCRLF (a ++ '\r' :: '\n' :: b) = splitCRLF a ++ splitCRLF b by
    exact H a.length a le_rfl b
  intro n
  induction n with
  | zero =>
    intro a ha b
    have ha2 : a = [] := List.length_eq_zero.mp (Nat.le_zero.mp ha)
    subst ha2
    rw [List.nil_append, splitCRLF_crlf]
    rfl
  | succ n ih =>
    intro a ha b
    cases a with
    | nil =>
      rw [List.nil_append, splitCRLF_crlf]
      rfl
    | cons c a1 =>
      by_cases hc : c = '\r' ∧ a1.head? = some '\n'
      · obtain ⟨rfl, hh⟩ := hc
        cases a1 with
        | nil => simp at hh
        | cons d a2 =>
          simp only [List.head?_cons, Option.some.injEq] at hh
          subst hh
          simp only [List.cons_append]
          rw [splitCRLF_crlf, splitCRLF_crlf,
            ih a2 (by simp only [List.length_cons] at ha; omega) b]
          rfl
      · have hc2 : ¬(c = '\r' ∧ (a1 ++ '\r' :: '\n' :: b).head? = some '\n') := by
          rintro ⟨rfl, hh⟩
          apply hc
          refine ⟨rfl, ?_⟩
          cases a1 with
          | nil => simp at hh
          | cons d a2 => simpa using hh
        rw [List.cons_append, splitCRLF_cons c _ hc2,
          ih a1 (by simp only [List.length_cons] at ha; omega) b,
          consHead_append c _ _ (splitCRLF_ne_nil a1), ← splitCRLF_cons c a1 hc]

/-- A text without a delimiter is one single token. -/
theorem splitCRLF_of_none : ∀ (s : List Char), findLastCRLF s = none →
    splitCRLF s = [s] := by
  intro s
  induction s with
  | nil => intro _; rfl
  | cons c rest ih =>
    intro h
    rw [findLastCRLF_cons] at h
    cases hfr : findLastCRLF rest with
    | some i => rw [hfr] at h; cases h
    | none =>
      rw [hfr] at h
      by_cases hcond : c = '\r' ∧ rest.head? = some '\n'
      · rw [if_pos hcond] at h; cases h
      · rw [splitCRLF_cons c rest hcond, ih hfr]
        rfl

/-- `lastIndexOf` finds the delimiter in front of a delimiter-free
tail. -/
theorem findLastCRLF_append_crlf : ∀ (a b : List Char), findLastCRLF b = none →
    findLastCRLF (a ++ '\r' :: '\n' :: b) = some a.length := by
  intro a
  induction a with
  | nil =>
    intro b hb
    rw [List.nil_append, findLastCRLF_cons]
    have h1 : findLastCRLF ('\n' :: b) = none := by
      rw [findLastCRLF_cons, hb]
      rw [if_neg]
      rintro ⟨h2, _⟩
      exact absurd h2 (by decide)
    rw [h1]
    rw [if_pos ⟨rfl, rfl⟩]
    rfl
  | cons c a1 ih =>
    intro b hb
    rw [List.cons_append, findLastCRLF_cons, ih b hb]
    rfl

/-- A successful `lastIndexOf` decomposes the buffer into a prefix, the
last delimiter, and a delimiter-free tail. -/
theorem findLastCRLF_some : ∀ (s : List Char) (i : Nat), findLastCRLF s = some i →
    ∃ a b, s = a ++ '\r' :: '\n' :: b ∧ a.length = i ∧ findLastCRLF b = none := by
  intro s
  induction s with
  | nil => intro i h; cases h
  | cons c rest ih =>
    intro i h
    rw [findLastCRLF_cons] at h
    cases hfr : findLastCRLF rest with
    | some j =>
      rw [hfr] at h
      injection h with h
      obtain ⟨a, b, rfl, rfl, hb⟩ := ih j hfr
      exact ⟨c :: a, b, rfl, by simp [← h], hb⟩
    | none =>
      rw [hfr] at h
      by_cases hcond : c = '\r' ∧ rest.head? = some '\n'
      · rw [if_pos hcond] at h
        injection h with h
        obtain ⟨rfl, hh⟩ := hcond
        cases rest with
        | nil => simp at hh
        | cons d b =>
          simp only [List.head?_cons, Option.some.injEq] at hh
          subst hh
          refine ⟨[], b, rfl, by simp [← h], ?_⟩
          rw [findLastCRLF_cons] at hfr
          cases hfb : findLastCRLF b with
          | some k => rw [hfb] at hfr; cases hfr
          | none => rfl
      · rw [if_neg hcond] at h
        cases h

/-- `feed` only depends on the concatenation of buffer and chunk. -/
theorem feed_eq (buf chunk : List Char) : feed buf chunk = feed [] (buf ++ chunk) := by
  unfold feed
  rw [List.nil_append]

/-- A feed that brings no delimiter emits nothing and buffers all
bytes: a token lacking its terminating delimiter is never emitted. -/
theorem feed_none (s : List Char) (hs : findLastCRLF s = none) :
    feed [] s = ([], s) := by
  unfold feed
  rw [List.nil_append, hs]


/-- `feed` on a buffer with a known last delimiter: the prefix is split
and filtered, the delimiter-free tail becomes the new buffer. -/
theorem feed_decomp (a b : List Char) (hb : findLastCRLF b = none) :
    feed [] (a ++ '\r' :: '\n' :: b)
      = ((splitCRLF a).filter (fun t => ¬ isBlankTok t), b) := by
  unfold feed
  rw [List.nil_append, findLastCRLF_append_crlf a b hb]
  have ht : (a ++ '\r' :: '\n' :: b).take a.length = a := List.take_left a _
  have hd : (a ++ '\r' :: '\n' :: b).drop (a.length + 2) = b := by
    have h2 : a ++ '\r' :: '\n' :: b = (a ++ ['\r', '\n']) ++ b := by simp
    have hlen : (a ++ ['\r', '\n']).length = a.length + 2 := by simp
    rw [h2, ← hlen, List.drop_left]
  dsimp only
  rw [ht, hd]

/-- Tokens before an explicit delimiter are emitted in front of
whatever the rest of the stream emits. -/
theorem feed_prefix (a w : List Char) :
    feed [] (a ++ '\r' :: '\n' :: w)
      = ((splitCRLF a).filter (fun t => ¬ isBlankTok t) ++ (feed [] w).1,
         (feed [] w).2) := by
  cases hw : findLastCRLF w with
  | none =>
    rw [feed_decomp a w hw, feed_none w hw]
    simp
  | some j =>
    obtain ⟨a2, b2, rfl, rfl, hb2⟩ := findLastCRLF_some w j hw
    rw [feed_decomp a2 b2 hb2]
    have h2 : a ++ '\r' :: '\n' :: (a2 ++ '\r' :: '\n' :: b2)
        = (a ++ '\r' :: '\n' :: a2) ++ '\r' :: '\n' :: b2 := by simp
    rw [h2, feed_decomp _ b2 hb2, splitCRLF_append_crlf, List.filter_append]

/-- Splitting one feed into two consecutive feeds emits the same tokens
in the same order and leaves the same buffer. -/
theorem feed_comp (s d : List Char) :
    feed [] (s ++ d)
      = ((feed [] s).1 ++ (feed (feed [] s).2 d).1, (feed (feed [] s).2 d).2) := by
  cases hs : findLastCRLF s with
  | none =>
    rw [feed_none s hs]
    dsimp only
    rw [feed_eq s d]
    simp
  | some i =>
    obtain ⟨a, b, rfl, rfl, hb⟩ := findLastCRLF_some s i hs
    rw [feed_decomp a b hb]
    dsimp only
    rw [feed_eq b d]
    have h2 : (a ++ '\r' :: '\n' :: b) ++ d = a ++ '\r' :: '\n' :: (b ++ d) := by simp
    rw [h2, feed_prefix a (b ++ d)]

/-- The retained buffer never contains a delimiter. -/
theorem feed_buf_none (buf chunk : List Char) :
    findLastCRLF (feed buf chunk).2 = none := by
  rw [feed_eq]
  cases hs : findLastCRLF (buf ++ chunk) with
  | none =>
    rw [feed_none _ hs]
    exact hs
  | some i =>
    obtain ⟨a, b, heq, _, hb⟩ := findLastCRLF_some _ i hs
    rw [heq, feed_decomp a b hb]
    exact hb

/-- Folding chunks through the framer, from any delimiter-free buffer,
equals one feed of the concatenated input. -/
theorem feedMany_go : ∀ (chunks : List (List Char)) (acc : List (List Char))
    (buf : List Char), findLastCRLF buf = none →
    chunks.foldl feedStep (acc, buf)
      = (acc ++ (feed buf chunks.flatten).1, (feed buf chunks.flatten).2) := by
  intro chunks
  induction chunks with
  | nil =>
    intro acc buf hbuf
    simp only [List.foldl_nil, List.flatten_nil]
    rw [feed_eq, List.append_nil, feed_none buf hbuf]
    simp
  | cons ch rest ih =>
    intro acc buf hbuf
    simp only [List.foldl_cons, List.flatten_cons]
    rw [show feedStep (acc, buf) ch = (acc ++ (feed buf ch).1, (feed buf ch).2) from rfl]
    rw [ih _ _ (feed_buf_none buf ch)]
    have hkey : feed buf (ch ++ rest.flatten)
        = ((feed buf ch).1 ++ (feed (feed buf ch).2 rest.flatten).1,
           (feed (feed buf ch).2 rest.flatten).2) := by
      rw [feed_eq buf (ch ++ rest.flatten), ← List.append_assoc,
        feed_comp (buf ++ ch) rest.flatten, ← feed_eq buf ch]
    rw [hkey]
    simp [List.append_assoc]

/-- Claim C6 (amended): for every byte stream and every way of
splitting it into feed chunks, the framer emits exactly the
CRLF-delimited complete tokens of the stream in order, independent of
the split points; tokens that are empty or whitespace-only are
discarded (the code drops `!token.trim()` tokens, not only empty ones);
bytes after the last delimiter remain buffered, and a feed containing
no delimiter emits nothing. -/
theorem framer_split_independence :
    (∀ chunks : List (List Char), feedMany chunks = feed [] chunks.flatten) ∧
    (∀ s : List Char, findLastCRLF s = none → feed [] s = ([], s)) ∧
    (∀ chunks : List (List Char),
      (feedMany chunks).1
        = ((splitCRLF chunks.flatten).dropLast).filter (fun t => ¬ isBlankTok t) ∧
      (splitCRLF chunks.flatten).getLast? = some (feedMany chunks).2) := by
  have hmany : ∀ chunks : List (List Char),
      feedMany chunks = feed [] chunks.flatten := by
    intro chunks
    unfold feedMany
    rw [feedMany_go chunks [] [] rfl]
    simp [feed_eq]
  have hview : ∀ s : List Char,
      (feed [] s).1 = ((splitCRLF s).dropLast).filter (fun t => ¬ isBlankTok t) ∧
      (splitCRLF s).getLast? = some (feed [] s).2 := by
    intro s
    cases hs : findLastCRLF s with
    | none =>
      rw [feed_none s hs, splitCRLF_of_none s hs]
      simp
    | some i =>
      obtain ⟨a, b, rfl, _, hb⟩ := findLastCRLF_some s i hs
      rw [feed_decomp a b hb, splitCRLF_append_crlf, splitCRLF_of_none b hb]
      constructor
      · dsimp only
        rw [List.dropLast_concat]
      · dsimp only
        rw [List.getLast?_concat]
  refine ⟨hmany, fun s => feed_none s, fun chunks => ?_⟩
  rw [hmany]
  exact hview _

/-- Claim C6 is false on the code in one detail: the framer discards
every whitespace-only token, not only empty tokens - the complete
token `" "` of the stream `" \u000d\u000a"` is dropped, not emitted. -/
theorem blank_token_discarded :
    (feed [] [' ', '\r', '\n'] = ([], []) ∧
      ((splitCRLF [' ', '\r', '\n']).dropLast).filter (fun t => ¬ t = [])
        = [[' ']]) ∧
    ¬ claimC6Prop := by
  refine ⟨by decide, fun h => ?_⟩
  have h2 := h [[' ', '\r', '\n']]
  exact absurd h2 (by decide)

/-- Witness for C6 (amended): the concrete stream `"A\u000d\u000aB\u000d\u000a"` split
at an arbitrary point inside the delimiter, and the delimiter-free feed
`"AB"`. -/
theorem framer_split_independence_witness :
    feedMany [['A', '\r'], ['\n', 'B', '\r', '\n']]
      = feed [] [['A', '\r'], ['\n', 'B', '\r', '\n']].flatten ∧
    feed [] ['A', 'B'] = ([], ['A', 'B']) :=
  ⟨framer_split_independence.1 _,
    framer_split_independence.2.1 ['A', 'B'] (by decide)⟩

end NTPlatform
